import Mathlib

/-!
Verification of the zindex core (src/Index.cpp): the checkpoint (access
point) placement policy of the builder, the random-access line reader
(Index::Impl::print / getLine), metadata validation on open
(Index::Impl::init), the window snapshot (makeWindow), and numeric key
parsing (NumericHandler::add).

The C++ code is shallowly embedded: byte buffers become `List Nat`,
64-bit machine integers become `Nat` (unsigned bit pattern) with explicit
reduction modulo 2 ^ 64 where overflow matters, fallible code returns
`Except`/`Option`.  The zlib inflate engine is an external collaborator:
the build loop is modelled as a fold over a trace of inflate steps, each
reporting the bytes produced and the block-boundary flags that zlib
exposes through data_type (end-of-block 0x80, last-block 0x40), and the
reader-side "inflate from a checkpoint" is modelled as reading the
uncompressed byte stream from the checkpoint's uncompressed offset
(spec section 8, property 4: checkpoint resume yields byte-identical
output to streaming from offset zero).

LineFinder (LineFinder.h/.cpp) is not present under src/; its semantics
are modelled from the spec where needed, as flagged on the individual
definitions.
-/

namespace Zindex

/-- Byte value of the newline character that terminates lines. -/
def nl : Nat := 10

/-- Constant WindowSize from Index.cpp: 32768 (32 KiB). -/
def WindowSize : Nat := 32768

/-- Constant DefaultIndexEvery from Index.cpp: 32 MiB. -/
def DefaultIndexEvery : Nat := 32 * 1024 * 1024

/-- Modelled from the spec: LineFinder line splitting (section 4.3 and the
glossary).  A line is a maximal byte run terminated by the newline byte,
or by end of input for a final unterminated line.  `splitLines data` is
the list of lines of `data`, each terminated line including its trailing
newline byte. -/
def splitLines : List Nat → List (List Nat)
  | [] => []
  | b :: rest =>
    if b = nl then [b] :: splitLines rest
    else
      match splitLines rest with
      | [] => [[b]]
      | l :: ls => (b :: l) :: ls

/-- Total byte length of a list of lines. -/
def sumLen (ls : List (List Nat)) : Nat := (ls.map (fun l => l.length)).sum

/-- Modelled from the spec: the vector returned by LineFinder::lineOffsets()
and consumed by Index::Builder::Impl::build (Index.cpp:513-522).  Entry k
is the uncompressed offset of the first byte of line k+1 (the sum of the
lengths of the preceding lines); the final entry is the total uncompressed
size, so that build's `lineOffsets[line+1] - lineOffsets[line]` yields each
line's length including its terminator (spec section 4.3: a trailing
unterminated line is recorded with length extending to total_out). -/
def lineOffsets (data : List Nat) : List Nat :=
  (List.range ((splitLines data).length + 1)).map
    (fun k => sumLen ((splitLines data).take k))

/-- The LineOffsets table row for 1-based line number n, as inserted by
Index::Builder::Impl::build (Index.cpp:514-522): `(offset, length)` for
lines 1 .. lineOffsets.size() - 1, none otherwise. -/
def lineRow (data : List Nat) (n : Nat) : Option (Nat × Nat) :=
  let offs := lineOffsets data
  if 1 ≤ n ∧ n + 1 ≤ offs.length then
    some (offs.getD (n - 1) 0, offs.getD n 0 - offs.getD (n - 1) 0)
  else none

/-- Whether an AccessPoints row `(uncompressedOffset, uncompressedEndOffset)`
covers a given uncompressed offset: the WHERE clause
`offset >= uncompressedOffset AND offset <= uncompressedEndOffset` of
lineQuery_ (Index.cpp:189-194). -/
def coversOffset (row : Nat × Nat) (off : Nat) : Bool :=
  decide (row.1 ≤ off) && decide (off ≤ row.2)

/-- The access-point half of lineQuery_ (Index.cpp:189-194): the first
AccessPoints row whose range covers the offset (LIMIT 1). -/
def findAccessPoint (aps : List (Nat × Nat)) (off : Nat) : Option (Nat × Nat) :=
  aps.find? (fun r => coversOffset r off)

/-- The lineQuery_ join of Index.cpp:189-194: the LineOffsets row for the
requested line joined with a covering AccessPoints row; yields
`(line, offset, length, apUncompressedOffset)` or none when either side
has no matching row. -/
def lineQuery (data : List Nat) (aps : List (Nat × Nat)) (n : Nat) :
    Option (Nat × Nat × Nat × Nat) :=
  match lineRow data n with
  | none => none
  | some (o, l) =>
    match findAccessPoint aps o with
    | none => none
    | some ap => some (n, o, l, ap.1)

/-- Index::Impl::print (Index.cpp:267-327).  The inflate-from-checkpoint
machinery (window dictionary, bit priming, the chunked skip loop that
discards `offset - uncompressedOffset` bytes through discardBuffer, and
the fill of lineBuf with `length` bytes) is modelled by its effect on the
uncompressed stream: the resumed stream is the uncompressed data from the
access point's offset onward, the skip loop drops `offset -
uncompressedOffset` of its bytes, and lineBuf receives the next `length`
bytes.  The sink is then invoked once with
`(line, offset, lineBuf, length - 1)`. -/
def print (data : List Nat) (row : Nat × Nat × Nat × Nat) :
    Nat × Nat × List Nat × Nat :=
  match row with
  | (line, offset, length, apOffset) =>
    let lineBuf := ((data.drop apOffset).drop (offset - apOffset)).take length
    (line, offset, lineBuf, length - 1)

/-- Index::Impl::getLine (Index.cpp:241-246): run lineQuery_; if it yields
no row, return without invoking the sink (`if (lineQuery_.step()) return;`),
otherwise print the row to the sink.  `some t` models exactly one sink
invocation with tuple t; `none` models returning with no invocation. -/
def getLine (data : List Nat) (aps : List (Nat × Nat)) (n : Nat) :
    Option (Nat × Nat × List Nat × Nat) :=
  match lineQuery data aps n with
  | none => none
  | some row => some (print data row)

/-- The byte slice a sink may legally read from an invocation
`(line, offset, buf, len)`: the first `len` bytes of the buffer (the
reported length excludes the final byte of the stored region). -/
def sinkVisible (t : Nat × Nat × List Nat × Nat) : List Nat :=
  t.2.2.1.take t.2.2.2

/-! ### Builder line fan-out (skipFirst) -/

/-- Index::Builder::Impl::onLine (Index.cpp:571-579): lines numbered at or
below skipFirst are not fanned out to the registered index handlers;
`some (lineNumber, line)` models the fan-out event, `none` the early
return. -/
def builderOnLine (skipFirst : Nat) (lineNumber : Nat) (line : List Nat) :
    Option (Nat × List Nat) :=
  if lineNumber ≤ skipFirst then none else some (lineNumber, line)

/-- Modelled from the spec: LineFinder hands each line to its sink without
the terminating newline (section 4.3: the key-extractor sees the line
without its terminator). -/
def stripTerminator (l : List Nat) : List Nat :=
  if l.getLast? = some nl then l.dropLast else l

/-- The `(lineNumber, lineBytes)` pairs that reach the registered
key-extractors during a build with the given skipFirst: LineFinder's
per-line events filtered through Index::Builder::Impl::onLine. -/
def indexedLines (skipFirst : Nat) (data : List Nat) : List (Nat × List Nat) :=
  (splitLines data).enum.filterMap
    (fun p => builderOnLine skipFirst (p.1 + 1) (stripTerminator p.2))

/-! ### Reader metadata validation -/

/-- Index::Impl::init (Index.cpp:209-239).  Compares the companion
compressed file's size and modification time (as decimal strings, the
to_string comparison of the source) against the Metadata table.
Returns the emitted warnings on success, or the fatal error message. -/
def initReader (metadata : List (String × String)) (fileSize fileMTime : Int)
    (force : Bool) : Except String (List String) :=
  let sizeStr := toString fileSize
  let timeStr := toString fileMTime
  let sizeCheck : Except String (List String) :=
    match metadata.lookup "compressedSize" with
    | some v =>
      if sizeStr ≠ v then
        if force then .ok ["Expected compressed size mismatched, continuing anyway"]
        else .error "Compressed size changed since index was built"
      else .ok []
    | none => .ok []
  match sizeCheck with
  | .error e => .error e
  | .ok w1 =>
    match metadata.lookup "compressedModTime" with
    | some v =>
      if timeStr ≠ v then
        if force then .ok (w1 ++ ["Expected compressed timestamp, continuing anyway"])
        else .error "Compressed file has been modified since index was built"
      else .ok w1
    | none => .ok w1

/-! ### Numeric key parsing -/

/-- The digit-accumulation loop of NumericHandler::add (Index.cpp:156-165).
The int64 accumulator is modelled by its unsigned 64-bit bit pattern; the
source's `val *= 10` happens before the digit check, and both the multiply
and the add wrap modulo 2 ^ 64.  The error carries the original key text
(initIndex/initLen in the source). -/
def parseLoop (initKey : List Char) : Nat → List Char → Except String Nat
  | val, [] => .ok val
  | val, c :: rest =>
    let val2 := val * 10 % 2 ^ 64
    if c < '0' ∨ c > '9' then
      .error ("Non-numeric: \x27" ++ String.mk initKey ++ "\x27")
    else parseLoop initKey ((val2 + (c.toNat - 48)) % 2 ^ 64) rest

/-- Reinterpret an unsigned 64-bit bit pattern as a signed two's-complement
64-bit integer (the int64_t value NumericHandler::add binds to :key). -/
def toSigned64 (n : Nat) : Int :=
  if n < 2 ^ 63 then (n : Int) else (n : Int) - 2 ^ 64

/-- NumericHandler::add (Index.cpp:144-175): strip one optional leading
minus sign, reject an empty remainder, run the digit loop, negate (with
int64 wrap-around) when the sign was present, and store the signed value. -/
def numericAdd (key : List Char) : Except String Int :=
  let digits := if key.head? = some '-' then key.tail else key
  if digits = [] then .error "Non-numeric: empty string"
  else
    match parseLoop key 0 digits with
    | .error e => .error e
    | .ok v =>
      let w := if key.head? = some '-' then (2 ^ 64 - v) % 2 ^ 64 else v
      .ok (toSigned64 w)

/-- IndexHandler::onLine for a numeric index (Index.cpp:101-113 together
with NumericHandler::add): each key the extractor emitted for the line is
parsed; any parse failure is caught and rethrown with the line number and
the raw line content spliced into the message.  `addAllKeys` models the
extractor invoking add once per emitted key, stopping at the first
exception. -/
def addAllKeys : List String → Except String (List Int)
  | [] => .ok []
  | k :: rest =>
    match numericAdd k.data with
    | .error e => .error e
    | .ok v =>
      match addAllKeys rest with
      | .error e => .error e
      | .ok vs => .ok (v :: vs)

def numericOnLine (lineNumber : Nat) (line : String) (keys : List String) :
    Except String (List Int) :=
  match addAllKeys keys with
  | .ok vs => .ok vs
  | .error e =>
    .error ("Failed to index line " ++ toString lineNumber ++ ": \x27"
      ++ line ++ "\x27 - " ++ e)

/-- The shape of keys NumericHandler::add accepts, per the claim's words:
after an optional leading minus sign, a nonempty string of decimal
digits. -/
def isNumericKeyShape (key : List Char) : Bool :=
  let digits := if key.head? = some '-' then key.tail else key
  !digits.isEmpty && digits.all (fun c => decide ('0' ≤ c) && decide (c ≤ '9'))

/-- Mathematical value of a decimal digit string (most significant digit
first), used to state the overflow claim. -/
def digitsVal (key : List Char) : Nat :=
  key.foldl (fun a c => a * 10 + (c.toNat - 48)) 0

/-! ### Build loop: checkpoint placement -/

/-- One inflate(Z_BLOCK) step of the build loop, as reported by zlib:
the number of uncompressed bytes this step produced, the data_type 0x80
bit (step ended at a block boundary), the data_type 0x40 bit (currently
in the last block of the stream), and whether inflate returned
Z_STREAM_END. -/
structure InflateStep where
  outBytes : Nat
  endOfBlock : Bool
  lastBlock : Bool
  streamEnd : Bool
deriving DecidableEq

/-- State of Index::Builder::Impl::build (Index.cpp:408-527) relevant to
access-point placement: totalOut, last (uncompressed offset of the
previously emitted checkpoint), the parameter bindings of the pending
(not yet stepped) AccessPoints insert, and the rows inserted so far.
Each inserted row is `(boundUncompressedOffset, uncompressedEndOffset)`;
the offset is an Option because sqlite steps the insert with whatever
bindings are present, and no offset has been bound before the first
checkpoint. -/
structure BuildState where
  totalOut : Nat
  last : Nat
  pending : Option Nat
  rows : List (Option Nat × Nat)
deriving DecidableEq

/-- Initial build state: totalOut = 0, last = 0, no bindings, no rows. -/
def initialBuildState : BuildState := ⟨0, 0, none, []⟩

/-- The checkpoint condition of Index.cpp:464-468:
`endOfBlock && !lastBlockInStream && (totalOut - last > indexEvery ||
totalOut == 0)` (needsIndex is `sinceLast > indexEvery || totalOut == 0`
with sinceLast = totalOut - last; last never exceeds totalOut in the
loop, so Nat subtraction agrees with the uint64 subtraction). -/
def checkpointCond (every totalOut last : Nat)
    (endOfBlock lastBlock : Bool) : Bool :=
  endOfBlock && !lastBlock &&
    (decide (totalOut - last > every) || decide (totalOut = 0))

/-- The body of the checkpoint branch (Index.cpp:468-488): when totalOut
is nonzero, the previously bound access point is completed with
uncompressedEndOffset = totalOut - 1 and inserted; then the new point's
uncompressedOffset = totalOut is bound and last is set to totalOut. -/
def emitCheckpoint (s : BuildState) : BuildState :=
  if s.totalOut = 0 then
    { s with last := s.totalOut, pending := some s.totalOut }
  else
    { s with
      last := s.totalOut
      pending := some s.totalOut
      rows := s.rows ++ [(s.pending, s.totalOut - 1)] }

/-- One iteration of the inner build loop (Index.cpp:444-500): totalOut
is advanced by the step's output; on Z_STREAM_END the loop breaks before
the checkpoint logic; otherwise a checkpoint is emitted when
checkpointCond holds. -/
def inflateStep (every : Nat) (s : BuildState) (st : InflateStep) :
    BuildState :=
  let s' : BuildState := { s with totalOut := s.totalOut + st.outBytes }
  if st.streamEnd then s'
  else if checkpointCond every s'.totalOut s'.last st.endOfBlock st.lastBlock
  then emitCheckpoint s'
  else s'

/-- The build loop over a trace of inflate steps, stopping at the first
step that returns Z_STREAM_END (Index.cpp:437-501). -/
def runSteps (every : Nat) : BuildState → List InflateStep → BuildState
  | s, [] => s
  | s, st :: rest =>
    let s' := inflateStep every s st
    if st.streamEnd then s' else runSteps every s' rest

/-- The flush after the loop (Index.cpp:503-508): when totalOut is
nonzero, the pending access point is completed with
uncompressedEndOffset = totalOut - 1 and inserted. -/
def finishBuild (s : BuildState) : BuildState :=
  if s.totalOut = 0 then s
  else { s with rows := s.rows ++ [(s.pending, s.totalOut - 1)] }

/-- The AccessPoints rows (uncompressedOffset binding,
uncompressedEndOffset) produced by a completed build over the given
inflate trace, in insertion order. -/
def buildAccessPoints (every : Nat) (steps : List InflateStep) :
    List (Option Nat × Nat) :=
  (finishBuild (runSteps every initialBuildState steps)).rows

/-- The first inflate(Z_BLOCK) step of any zlib/gzip stream: zlib returns
immediately after decoding the header, before any output, with the
data_type end-of-block bit set and the last-block bit clear. -/
def headerStep : InflateStep := ⟨0, true, false, false⟩

/-- The checkpoint condition as claim C3 states it: the step ended on a
block boundary, the block is not the last of the stream, and either at
least index_every bytes have been produced since the previously emitted
checkpoint, or no checkpoint exists yet and the cursor has advanced past
zero. -/
def specCheckpointCond (every totalOut last : Nat)
    (hasCheckpoint endOfBlock lastBlock : Bool) : Bool :=
  endOfBlock && !lastBlock &&
    (decide (totalOut - last ≥ every) ||
      (!hasCheckpoint && decide (totalOut > 0)))

/-! ### Window snapshots -/

/-- makeWindow (Index.cpp:50-61) on the 32 KiB ring buffer: `left` bytes
are still unfilled at the tail of the buffer, so the snapshot is the tail
`left` bytes (data surviving from the previous buffer cycle) followed by
the freshly filled prefix of WindowSize - left bytes.  The zlib
compress2 of the snapshot is lossless and omitted: the stored window is
modelled by the snapshot it compresses. -/
def makeWindow (win : List Nat) (left : Nat) : List Nat :=
  (if left ≠ 0 then (win.drop (WindowSize - left)).take left else []) ++
  (if left < WindowSize then win.take (WindowSize - left) else [])

/-- The contents of the build loop's window buffer (`uint8_t
window[WindowSize]`, Index.cpp:426) during the first buffer cycle, after
`produced` bytes of uncompressed output: zlib has written the produced
bytes at the front; the rest of the buffer still holds its initial
contents `init` (the array is declared without an initializer, so `init`
is arbitrary stack memory). -/
def windowBufferAtStart (init produced : List Nat) : List Nat :=
  produced ++ init.drop produced.length

/-! ### Access point chain predicate -/

/-- `chainFrom start rows stop`: the rows contiguously cover
[start, stop): the first row's offset is start, each row's end + 1 is the
next row's offset, and the final row's end + 1 is stop. -/
def chainFrom : Nat → List (Nat × Nat) → Nat → Prop
  | start, [], stop => start = stop
  | start, r :: rest, stop => r.1 = start ∧ chainFrom (r.2 + 1) rest stop

/-- Build-loop invariant tying the sqlite binding state to the inserted
AccessPoints rows: after the first checkpoint, pending holds the
uncompressed offset of the most recently emitted checkpoint, which equals
last and never exceeds totalOut; the inserted rows all carry a bound
offset and contiguously cover [0, pending); and every inserted row's
range is nonempty. -/
def BuildInv (s : BuildState) : Prop :=
  ∃ p rows, s.pending = some p ∧ s.last = p ∧ p ≤ s.totalOut ∧
    s.rows = rows.map (fun r => (some r.1, r.2)) ∧
    chainFrom 0 rows p ∧ ∀ r ∈ rows, r.1 ≤ r.2

/-! ## Theorems -/

@[simp]
theorem chainFrom_nil (a b : Nat) : chainFrom a [] b ↔ a = b := Iff.rfl

@[simp]
theorem chainFrom_cons (a b : Nat) (r : Nat × Nat) (rest : List (Nat × Nat)) :
    chainFrom a (r :: rest) b ↔ r.1 = a ∧ chainFrom (r.2 + 1) rest b :=
  Iff.rfl

theorem chainFrom_append (r1 : List (Nat × Nat)) :
    ∀ a b c (r2 : List (Nat × Nat)), chainFrom a r1 b → chainFrom b r2 c →
      chainFrom a (r1 ++ r2) c := by
  induction r1 with
  | nil =>
    intro a b c r2 h1 h2
    simp only [chainFrom_nil] at h1
    simpa [h1] using h2
  | cons r rest ih =>
    intro a b c r2 h1 h2
    exact ⟨h1.1, ih _ _ _ _ h1.2 h2⟩

theorem chainFrom_getD_head (a b : Nat) (rows : List (Nat × Nat))
    (h : chainFrom a rows b) (hne : rows ≠ []) :
    (rows.getD 0 (0, 0)).1 = a := by
  cases rows with
  | nil => exact absurd rfl hne
  | cons r rest => simpa using h.1

theorem chainFrom_adjacent (rows : List (Nat × Nat)) :
    ∀ a b, chainFrom a rows b → ∀ i, i + 1 < rows.length →
      (rows.getD i (0, 0)).2 + 1 = (rows.getD (i + 1) (0, 0)).1 := by
  induction rows with
  | nil => intro a b _ i hi; simp at hi
  | cons r rest ih =>
    intro a b h i hi
    cases i with
    | zero =>
      cases rest with
      | nil => simp at hi
      | cons r2 rest2 => simpa using (h.2.1).symm
    | succ j =>
      simp only [List.getD_cons_succ]
      exact ih _ _ h.2 j (by simpa using hi)

theorem chainFrom_last (rows : List (Nat × Nat)) :
    ∀ a b (d : Nat × Nat), chainFrom a rows b → rows ≠ [] →
      (rows.getLastD d).2 + 1 = b := by
  induction rows with
  | nil => intro a b d _ hne; exact absurd rfl hne
  | cons r rest ih =>
    intro a b d h _
    cases rest with
    | nil => simpa using h.2
    | cons r2 rest2 =>
      rw [List.getLastD_cons]
      exact ih _ _ _ h.2 (by simp)

theorem chainFrom_chain_lt (rows : List (Nat × Nat)) :
    ∀ a b, chainFrom a rows b → (∀ r ∈ rows.dropLast, r.1 ≤ r.2) →
      List.Chain' (fun x y => x.1 < y.1) rows := by
  induction rows with
  | nil => intro a b _ _; simp
  | cons r rest ih =>
    intro a b h hnd
    cases rest with
    | nil => simp
    | cons r2 rest2 =>
      rw [List.chain'_cons]
      constructor
      · have h1 : r.1 ≤ r.2 := hnd r (by simp)
        have h2 : r2.1 = r.2 + 1 := h.2.1
        omega
      · refine ih _ _ h.2 ?_
        intro x hx
        exact hnd x (by simpa using Or.inr hx)

theorem buildInv_inflateStep (every : Nat) (s : BuildState) (st : InflateStep)
    (h : BuildInv s) : BuildInv (inflateStep every s st) := by
  obtain ⟨p, rows, hp, hl, hpt, hr, hc, hnd⟩ := h
  unfold inflateStep
  by_cases hse : st.streamEnd
  · simp only [hse, if_true]
    exact ⟨p, rows, hp, hl, le_trans hpt (Nat.le_add_right _ _), hr, hc, hnd⟩
  · simp only [hse, Bool.false_eq_true, if_false]
    set t := s.totalOut + st.outBytes with ht
    by_cases hcond : checkpointCond every t s.last st.endOfBlock st.lastBlock
    · simp only [hcond, if_true]
      unfold emitCheckpoint
      by_cases ht0 : t = 0
      · simp only [ht0, if_true]
        have hp0 : p = 0 := by omega
        exact ⟨0, rows, by simp, by simp [hl, hp0], Nat.le_refl 0,
          hr, by simpa [hp0] using hc, hnd⟩
      · simp only [ht0, if_false]
        have hplt : p < t := by
          unfold checkpointCond at hcond
          simp only [Bool.and_eq_true, Bool.or_eq_true, decide_eq_true_eq] at hcond
          rcases hcond.2 with h1 | h1
          · rw [hl] at h1; omega
          · exact absurd h1 ht0
        refine ⟨t, rows ++ [(p, t - 1)], by simp, by simp, Nat.le_refl t, ?_, ?_, ?_⟩
        · simp [hr, hp]
        · refine chainFrom_append rows 0 p t [(p, t - 1)] hc ?_
          exact ⟨rfl, by simp only [chainFrom_nil]; omega⟩
        · intro r hrr
          rcases List.mem_append.mp hrr with hrr | hrr
          · exact hnd r hrr
          · simp only [List.mem_singleton] at hrr
            subst hrr
            show p ≤ t - 1
            omega
    · simp only [hcond, if_false]
      exact ⟨p, rows, hp, hl, le_trans hpt (Nat.le_add_right _ _), hr, hc, hnd⟩

theorem buildInv_runSteps (every : Nat) (steps : List InflateStep) :
    ∀ s, BuildInv s → BuildInv (runSteps every s steps) := by
  induction steps with
  | nil => intro s h; exact h
  | cons st rest ih =>
    intro s h
    unfold runSteps
    by_cases hse : st.streamEnd
    · simp only [hse, if_true]
      exact buildInv_inflateStep _ _ _ h
    · simp only [hse, Bool.false_eq_true, if_false]
      exact ih _ (buildInv_inflateStep _ _ _ h)

theorem buildInv_header (every : Nat) :
    BuildInv (inflateStep every initialBuildState headerStep) := by
  refine ⟨0, [], ?_, ?_, ?_, ?_, ?_, ?_⟩ <;>
    simp [inflateStep, headerStep, checkpointCond, emitCheckpoint,
      initialBuildState, chainFrom]

theorem runSteps_header_cons (every : Nat) (rest : List InflateStep) :
    runSteps every initialBuildState (headerStep :: rest) =
      runSteps every (inflateStep every initialBuildState headerStep) rest :=
  rfl

/-- Claim C2: for every completed build that produced output (modelled as
a trace of inflate steps whose first step is the zlib header boundary:
zero output, end-of-block set, last-block clear), the AccessPoints rows
ordered by uncompressedOffset (which is their insertion order, proved by
the Chain' conjunct) contiguously partition [0, totalOut): the first
row's uncompressedOffset is 0, each adjacent pair satisfies
end[i] + 1 = offset[i+1], and the last row's uncompressedEndOffset is
totalOut - 1. -/
theorem c2_access_points_partition (every : Nat) (rest : List InflateStep)
    (hout : 0 < (runSteps every initialBuildState (headerStep :: rest)).totalOut) :
    ∃ rows : List (Nat × Nat),
      buildAccessPoints every (headerStep :: rest) =
        rows.map (fun r => (some r.1, r.2)) ∧
      rows ≠ [] ∧
      List.Chain' (fun x y => x.1 < y.1) rows ∧
      (rows.getD 0 (0, 0)).1 = 0 ∧
      (∀ i, i + 1 < rows.length →
        (rows.getD i (0, 0)).2 + 1 = (rows.getD (i + 1) (0, 0)).1) ∧
      (rows.getLastD (0, 0)).2 =
        (runSteps every initialBuildState (headerStep :: rest)).totalOut - 1 := by
  have hinv : BuildInv (runSteps every initialBuildState (headerStep :: rest)) := by
    rw [runSteps_header_cons]
    exact buildInv_runSteps every rest _ (buildInv_header every)
  obtain ⟨p, rows, hp, hl, hpt, hr, hc, hnd⟩ := hinv
  set sfin := runSteps every initialBuildState (headerStep :: rest) with hsfin
  set T := sfin.totalOut with hT
  have hT0 : T ≠ 0 := by omega
  refine ⟨rows ++ [(p, T - 1)], ?_, by simp, ?_, ?_, ?_, ?_⟩
  · show (finishBuild sfin).rows = _
    unfold finishBuild
    simp only [← hT, hT0, if_false]
    simp [hr, hp]
  · refine chainFrom_chain_lt _ 0 T ?_ ?_
    · refine chainFrom_append rows 0 p T [(p, T - 1)] hc ?_
      exact ⟨rfl, by simp only [chainFrom_nil]; omega⟩
    · intro r hrr
      rw [List.dropLast_concat] at hrr
      exact hnd r hrr
  · refine chainFrom_getD_head 0 T _ ?_ (by simp)
    refine chainFrom_append rows 0 p T [(p, T - 1)] hc ?_
    exact ⟨rfl, by simp only [chainFrom_nil]; omega⟩
  · intro i hi
    refine chainFrom_adjacent _ 0 T ?_ i hi
    refine chainFrom_append rows 0 p T [(p, T - 1)] hc ?_
    exact ⟨rfl, by simp only [chainFrom_nil]; omega⟩
  · have hlast : ((rows ++ [(p, T - 1)]).getLastD (0, 0)).2 + 1 = T := by
      refine chainFrom_last _ 0 T (0, 0) ?_ (by simp)
      refine chainFrom_append rows 0 p T [(p, T - 1)] hc ?_
      exact ⟨rfl, by simp only [chainFrom_nil]; omega⟩
    omega

/-- Witness for C2 at a concrete trace: header boundary, then a single
stream-end step producing 6 bytes. -/
theorem c2_access_points_partition_witness :
    ∃ rows : List (Nat × Nat),
      buildAccessPoints 4 [headerStep, ⟨6, false, false, true⟩] =
        rows.map (fun r => (some r.1, r.2)) ∧
      rows ≠ [] ∧
      List.Chain' (fun x y => x.1 < y.1) rows ∧
      (rows.getD 0 (0, 0)).1 = 0 ∧
      (∀ i, i + 1 < rows.length →
        (rows.getD i (0, 0)).2 + 1 = (rows.getD (i + 1) (0, 0)).1) ∧
      (rows.getLastD (0, 0)).2 =
        (runSteps 4 initialBuildState
          [headerStep, ⟨6, false, false, true⟩]).totalOut - 1 :=
  c2_access_points_partition 4 [⟨6, false, false, true⟩] (by decide)

/-- Claim C3 counterexample: with index_every = 4, after the header
checkpoint at offset 0, a block boundary at totalOut = 4 has produced
exactly index_every = 4 bytes since the previous checkpoint ("at least
index_every"), yet the code's condition sinceLast > indexEvery is false
and no checkpoint is emitted there: the completed build has a single
access point at offset 0 and none at offset 4.  The claim's condition
(specCheckpointCond) is true at that step. -/
theorem c3_counterexample :
    checkpointCond 4 4 0 true false = false ∧
    specCheckpointCond 4 4 0 true true false = true ∧
    buildAccessPoints 4
        [headerStep, ⟨4, true, false, false⟩, ⟨2, false, false, true⟩] =
      [(some 0, 5)] := by decide

/-- Claim C3 as amended: during the build, a non-stream-end inflate step
emits a checkpoint if and only if the step ended on a DEFLATE block
boundary, the block is not the last block of the stream, and either
strictly more than index_every uncompressed bytes have been produced
since the previously emitted checkpoint, or totalOut is exactly zero
(the boundary right after the stream header, where the first checkpoint
is emitted even though the cursor has not advanced past zero). -/
theorem c3_checkpoint_condition (every : Nat) (s : BuildState)
    (st : InflateStep) (hse : st.streamEnd = false) :
    inflateStep every s st =
      if st.endOfBlock = true ∧ st.lastBlock = false ∧
          (every < s.totalOut + st.outBytes - s.last ∨
            s.totalOut + st.outBytes = 0)
      then emitCheckpoint { s with totalOut := s.totalOut + st.outBytes }
      else { s with totalOut := s.totalOut + st.outBytes } := by
  unfold inflateStep
  simp only [hse, Bool.false_eq_true, if_false]
  have hiff : (checkpointCond every (s.totalOut + st.outBytes) s.last
      st.endOfBlock st.lastBlock = true) ↔
      (st.endOfBlock = true ∧ st.lastBlock = false ∧
        (every < s.totalOut + st.outBytes - s.last ∨
          s.totalOut + st.outBytes = 0)) := by
    unfold checkpointCond
    simp only [Bool.and_eq_true, Bool.or_eq_true, decide_eq_true_eq,
      Bool.not_eq_true']
    tauto
  rw [if_congr hiff rfl rfl]

/-- Witness for C3's amended theorem at the header step of a build with
index_every = 4. -/
theorem c3_checkpoint_condition_witness :
    inflateStep 4 initialBuildState headerStep =
      if headerStep.endOfBlock = true ∧ headerStep.lastBlock = false ∧
          (4 < initialBuildState.totalOut + headerStep.outBytes -
              initialBuildState.last ∨
            initialBuildState.totalOut + headerStep.outBytes = 0)
      then emitCheckpoint { initialBuildState with
        totalOut := initialBuildState.totalOut + headerStep.outBytes }
      else { initialBuildState with
        totalOut := initialBuildState.totalOut + headerStep.outBytes } :=
  c3_checkpoint_condition 4 initialBuildState headerStep rfl

theorem makeWindow_first_cycle (init produced : List Nat)
    (hinit : init.length = WindowSize)
    (hlen : produced.length < WindowSize) :
    makeWindow (windowBufferAtStart init produced)
        (WindowSize - produced.length) =
      init.drop produced.length ++ produced := by
  unfold makeWindow windowBufferAtStart
  have hne : WindowSize - produced.length ≠ 0 := by omega
  have h3 : WindowSize - (WindowSize - produced.length) = produced.length := by
    omega
  have h6 : (init.drop produced.length).length =
      WindowSize - produced.length := by
    simp [hinit]
  rw [if_pos hne, h3, List.drop_left produced (init.drop produced.length),
    ← h6, List.take_length, h6]
  by_cases hk : produced.length = 0
  · have hpnil := List.eq_nil_of_length_eq_zero hk
    rw [if_neg (by omega : ¬ WindowSize - produced.length < WindowSize), hpnil]
  · rw [if_pos (by omega : WindowSize - produced.length < WindowSize),
      List.take_left produced (init.drop produced.length)]

theorem getD_zero_replicate_append (k : Nat) (hk : k ≠ 0) (a d : Nat)
    (l : List Nat) : ((List.replicate k a) ++ l).getD 0 d = a := by
  cases k with
  | zero => exact absurd rfl hk
  | succ m => rfl

/-- Claim C4 counterexample: the window buffer is an uninitialized stack
array (`uint8_t window[WindowSize]`, Index.cpp:426), so at a checkpoint
emitted after 1 byte of output the snapshot's 32767-byte prefix is
whatever the buffer held initially, not zeros.  With initial buffer
contents all 1 and first output byte 7, the snapshot differs from the
zero-padded snapshot the claim asserts. -/
theorem c4_counterexample :
    makeWindow
        (windowBufferAtStart (1 :: List.replicate (WindowSize - 1) 1) [7])
        (WindowSize - 1) ≠
      List.replicate (WindowSize - 1) 0 ++ [7] := by
  intro h
  have hmw := makeWindow_first_cycle (1 :: List.replicate (WindowSize - 1) 1)
    [7] (by rw [List.length_cons, List.length_replicate]; decide) (by decide)
  simp only [List.length_singleton] at hmw
  rw [hmw] at h
  simp only [List.drop_succ_cons, List.drop_zero] at h
  have h0 := congrArg (fun l => l.getD 0 2) h
  simp only [getD_zero_replicate_append (WindowSize - 1) (by decide)] at h0
  exact absurd h0 (by decide)

/-- Claim C4 as amended: whenever a checkpoint is emitted before 32 KiB
of uncompressed output has been produced, the stored 32 KiB snapshot is
the uncompressed output produced so far preceded by the residual initial
contents of the window buffer at the unfilled positions; the buffer is
never zero-initialized, so the prefix is arbitrary stack memory, not
necessarily zeros (it is zeros only if the stack memory happened to be
zero). -/
theorem c4_window_padding (init produced : List Nat)
    (hinit : init.length = WindowSize)
    (hlen : produced.length < WindowSize) :
    makeWindow (windowBufferAtStart init produced)
        (WindowSize - produced.length) =
      init.drop produced.length ++ produced :=
  makeWindow_first_cycle init produced hinit hlen

/-- Witness for C4's amended theorem: an all-zero initial buffer and a
single produced byte. -/
theorem c4_window_padding_witness :
    makeWindow
        (windowBufferAtStart (List.replicate WindowSize 0) [7])
        (WindowSize - 1) =
      (List.replicate WindowSize 0).drop 1 ++ [7] :=
  c4_window_padding (List.replicate WindowSize 0) [7]
    (by simp) (by simp [WindowSize])

/-- Claim C6: Index::load with force = false raises an error when the
companion compressed file's size or modification time differs from the
recorded compressedSize / compressedModTime metadata; with force = true
the same mismatch only produces warnings and the open succeeds. -/
theorem c6_stale_index (md : List (String × String)) (size mtime : Int)
    (sv tv : String)
    (hs : md.lookup "compressedSize" = some sv)
    (ht : md.lookup "compressedModTime" = some tv)
    (hmism : toString size ≠ sv ∨ toString mtime ≠ tv) :
    (∃ e, initReader md size mtime false = .error e) ∧
    (∃ ws, initReader md size mtime true = .ok ws ∧ ws ≠ []) := by
  constructor
  · by_cases h1 : toString size = sv
    · have h2 : toString mtime ≠ tv := by tauto
      exact ⟨"Compressed file has been modified since index was built",
        by simp [initReader, hs, ht, h1, h2]⟩
    · exact ⟨"Compressed size changed since index was built",
        by simp [initReader, hs, h1]⟩
  · by_cases h1 : toString size = sv
    · have h2 : toString mtime ≠ tv := by tauto
      exact ⟨["Expected compressed timestamp, continuing anyway"],
        by simp [initReader, hs, ht, h1, h2], by simp⟩
    · by_cases h2 : toString mtime = tv
      · exact ⟨["Expected compressed size mismatched, continuing anyway"],
          by simp [initReader, hs, ht, h1, h2], by simp⟩
      · exact ⟨["Expected compressed size mismatched, continuing anyway",
            "Expected compressed timestamp, continuing anyway"],
          by simp [initReader, hs, ht, h1, h2], by simp⟩

/-- Witness for C6: recorded size 10 and mtime 5, live file of size 11
and mtime 5. -/
theorem c6_stale_index_witness :
    (∃ e, initReader [("compressedSize", "10"), ("compressedModTime", "5")]
        11 5 false = .error e) ∧
    (∃ ws, initReader [("compressedSize", "10"), ("compressedModTime", "5")]
        11 5 true = .ok ws ∧ ws ≠ []) :=
  c6_stale_index [("compressedSize", "10"), ("compressedModTime", "5")]
    11 5 "10" "5" rfl rfl (Or.inl (by decide))

/-- Claim C8: when the lineQuery_ join yields no row — in particular for
any line number with no LineOffsets row — getLine returns without
invoking the sink (and without raising: the early-return path performs no
fallible operation). -/
theorem c8_missing_line_silent (data : List Nat) (aps : List (Nat × Nat))
    (n : Nat) :
    (lineQuery data aps n = none → getLine data aps n = none) ∧
    (lineRow data n = none → getLine data aps n = none) := by
  constructor
  · intro h
    simp [getLine, h]
  · intro h
    simp [getLine, lineQuery, h]

/-- Witness for C8: a one-line file queried for line 5. -/
theorem c8_missing_line_silent_witness :
    getLine [97] [] 5 = none :=
  (c8_missing_line_silent [97] [] 5).2 (by decide)

theorem splitLines_flatten (data : List Nat) : (splitLines data).flatten = data := by
  induction data with
  | nil => rfl
  | cons b rest ih =>
    by_cases hb : b = nl
    · simp [splitLines, hb, ih]
    · cases hsr : splitLines rest with
      | nil =>
        have hrest : rest = [] := by rw [← ih, hsr]; rfl
        simp [splitLines, hb, hsr, hrest]
      | cons l ls =>
        have hflat : (l :: ls).flatten = rest := by rw [← hsr]; exact ih
        simp only [splitLines, hb, if_false, hsr]
        simpa using hflat

theorem sumLen_append (a b : List (List Nat)) :
    sumLen (a ++ b) = sumLen a + sumLen b := by
  simp [sumLen]

theorem sumLen_take_succ (ls : List (List Nat)) (k : Nat) (h : k < ls.length) :
    sumLen (ls.take (k + 1)) = sumLen (ls.take k) + (ls.getD k []).length := by
  rw [List.take_succ, sumLen_append]
  rw [List.getD_eq_getElem?_getD, List.getElem?_eq_getElem h]
  simp [sumLen]

theorem flatten_drop_sumLen (ls : List (List Nat)) :
    ∀ k, (ls.flatten).drop (sumLen (ls.take k)) = (ls.drop k).flatten := by
  induction ls with
  | nil => intro k; simp [sumLen]
  | cons l ls ih =>
    intro k
    cases k with
    | zero => simp [sumLen]
    | succ j =>
      show (l :: ls).flatten.drop (sumLen (l :: ls.take j)) = (ls.drop j).flatten
      rw [List.flatten_cons]
      have hsum : sumLen (l :: ls.take j) = l.length + sumLen (ls.take j) := by
        simp [sumLen]
      rw [hsum, ← List.drop_drop, List.drop_left]
      exact ih j

theorem flatten_extract (ls : List (List Nat)) (k : Nat) (h : k < ls.length) :
    ((ls.flatten).drop (sumLen (ls.take k))).take (ls.getD k []).length =
      ls.getD k [] := by
  rw [flatten_drop_sumLen, List.drop_eq_getElem_cons h, List.flatten_cons]
  have hg : ls.getD k [] = ls[k] := by
    rw [List.getD_eq_getElem?_getD, List.getElem?_eq_getElem h]
    rfl
  rw [hg, List.take_left]

theorem lineOffsets_length (data : List Nat) :
    (lineOffsets data).length = (splitLines data).length + 1 := by
  simp [lineOffsets]

theorem lineOffsets_getD (data : List Nat) (k : Nat)
    (h : k ≤ (splitLines data).length) :
    (lineOffsets data).getD k 0 = sumLen ((splitLines data).take k) := by
  rw [lineOffsets, List.getD_eq_getElem?_getD, List.getElem?_map,
    List.getElem?_range (by omega)]
  rfl

theorem lineRow_eq (data : List Nat) (n : Nat) (h1 : 1 ≤ n)
    (h2 : n ≤ (splitLines data).length) :
    lineRow data n =
      some (sumLen ((splitLines data).take (n - 1)),
        ((splitLines data).getD (n - 1) []).length) := by
  have hcond : 1 ≤ n ∧ n + 1 ≤ (lineOffsets data).length := by
    rw [lineOffsets_length]; omega
  rw [lineRow]
  simp only [hcond, and_self, if_true]
  rw [lineOffsets_getD data (n - 1) (by omega), lineOffsets_getD data n (by omega)]
  have hn : n = (n - 1) + 1 := by omega
  rw [hn, sumLen_take_succ (splitLines data) (n - 1) (by omega)]
  simp

theorem lineRow_region (data : List Nat) (n o l : Nat)
    (hrow : lineRow data n = some (o, l)) :
    1 ≤ n ∧ n ≤ (splitLines data).length ∧
      o = sumLen ((splitLines data).take (n - 1)) ∧
      l = ((splitLines data).getD (n - 1) []).length ∧
      (data.drop o).take l = (splitLines data).getD (n - 1) [] := by
  have hcond : 1 ≤ n ∧ n + 1 ≤ (lineOffsets data).length := by
    by_contra hc
    rw [lineRow] at hrow
    simp only [hc, if_false] at hrow
    exact Option.noConfusion hrow
  have h2 : n ≤ (splitLines data).length := by
    have := hcond.2
    rw [lineOffsets_length] at this
    omega
  rw [lineRow_eq data n hcond.1 h2] at hrow
  injection hrow with hrow
  have ho : o = sumLen ((splitLines data).take (n - 1)) :=
    (congrArg Prod.fst hrow).symm
  have hl : l = ((splitLines data).getD (n - 1) []).length :=
    (congrArg Prod.snd hrow).symm
  refine ⟨hcond.1, h2, ho, hl, ?_⟩
  rw [ho, hl]
  have hflat : data = (splitLines data).flatten := (splitLines_flatten data).symm
  calc ((data.drop (sumLen ((splitLines data).take (n - 1)))).take
          ((splitLines data).getD (n - 1) []).length)
      = (((splitLines data).flatten.drop
          (sumLen ((splitLines data).take (n - 1)))).take
          ((splitLines data).getD (n - 1) []).length) := by rw [← hflat]
    _ = (splitLines data).getD (n - 1) [] :=
        flatten_extract (splitLines data) (n - 1) (by omega)

/-- Claim C5: every sink invocation made by getLine passes exactly the
tuple (line number, uncompressed offset of the line, line bytes, stored
length minus one): the buffer holds the stored-length region of the
uncompressed stream starting at the line's offset, the reported length is
the stored length minus one, and the visible reported-length slice
excludes the region's final byte (the terminating newline byte of a
terminated line). -/
theorem c5_sink_tuple (data : List Nat) (aps : List (Nat × Nat)) (n o l : Nat)
    (ap : Nat × Nat)
    (hrow : lineRow data n = some (o, l))
    (hap : findAccessPoint aps o = some ap) :
    getLine data aps n = some (n, o, (data.drop o).take l, l - 1) ∧
    sinkVisible (n, o, (data.drop o).take l, l - 1) =
      (data.drop o).take (l - 1) := by
  have hap1 : ap.1 ≤ o := by
    have hfind := List.find?_some hap
    simp only [coversOffset, Bool.and_eq_true, decide_eq_true_eq] at hfind
    exact hfind.1
  constructor
  · simp only [getLine, lineQuery, hrow, hap, print]
    rw [List.drop_drop]
    have heq : ap.1 + (o - ap.1) = o := by omega
    rw [heq]
  · simp only [sinkVisible, List.take_take]
    rw [Nat.min_eq_left (by omega)]

/-- Witness for C5 at the file "a\nb\n" with a single access point
covering [0, 3], querying line 2. -/
theorem c5_sink_tuple_witness :
    getLine [97, 10, 98, 10] [(0, 3)] 2 =
      some (2, 2, (([97, 10, 98, 10] : List Nat).drop 2).take 2, 1) ∧
    sinkVisible (2, 2, (([97, 10, 98, 10] : List Nat).drop 2).take 2, 1) =
      (([97, 10, 98, 10] : List Nat).drop 2).take 1 :=
  c5_sink_tuple [97, 10, 98, 10] [(0, 3)] 2 2 2 (0, 3) (by decide) (by decide)

/-- Claim C1 counterexample: for the file "ab" with no terminating
newline, line 1 has a LineOffsets row (offset 0, length 2) and a covering
access point, and the claim asserts the sink sees exactly the line's
bytes [97, 98] (there is no terminating newline to exclude); but getLine
reports length 2 - 1 = 1, so the visible buffer is [97] — the final
content byte is dropped. -/
theorem c1_counterexample :
    ∃ t, getLine [97, 98] [(0, 1)] 1 = some t ∧
      sinkVisible t ≠ (splitLines [97, 98]).getD 0 [] := by
  refine ⟨(1, 0, [97, 98], 1), by decide, by decide⟩

/-- Claim C1 as amended: for every line N that has a LineOffsets row and
a covering access point, getLine invokes the sink exactly once, with the
buffer holding exactly line N of the fully decompressed file (including
its terminator when present), with reported length equal to the stored
LineOffsets length minus one, and with the visible reported-length slice
equal to line N with its final byte removed — which is line N without its
terminating newline exactly when line N is newline-terminated; for an
unterminated final line the last content byte is dropped as well. -/
theorem c1_line_roundtrip (data : List Nat) (aps : List (Nat × Nat))
    (n o l : Nat) (ap : Nat × Nat)
    (hrow : lineRow data n = some (o, l))
    (hap : findAccessPoint aps o = some ap) :
    getLine data aps n =
      some (n, o, (splitLines data).getD (n - 1) [], l - 1) ∧
    sinkVisible (n, o, (splitLines data).getD (n - 1) [], l - 1) =
      ((splitLines data).getD (n - 1) []).dropLast := by
  obtain ⟨h1, h2, ho, hl, hregion⟩ := lineRow_region data n o l hrow
  have hap1 : ap.1 ≤ o := by
    have hfind := List.find?_some hap
    simp only [coversOffset, Bool.and_eq_true, decide_eq_true_eq] at hfind
    exact hfind.1
  constructor
  · simp only [getLine, lineQuery, hrow, hap, print]
    rw [List.drop_drop]
    have heq : ap.1 + (o - ap.1) = o := by omega
    rw [heq, hregion]
  · simp only [sinkVisible]
    rw [List.dropLast_eq_take, hl]

/-- Witness for C1's amended theorem at the file "a\nb\n" with a single
access point covering [0, 3], querying line 2. -/
theorem c1_line_roundtrip_witness :
    getLine [97, 10, 98, 10] [(0, 3)] 2 =
      some (2, 2, (splitLines [97, 10, 98, 10]).getD 1 [], 1) ∧
    sinkVisible (2, 2, (splitLines [97, 10, 98, 10]).getD 1 [], 1) =
      ((splitLines [97, 10, 98, 10]).getD 1 []).dropLast :=
  c1_line_roundtrip [97, 10, 98, 10] [(0, 3)] 2 2 2 (0, 3)
    (by decide) (by decide)

/-- Claim C9: with skip_first = K, no line numbered at most K is passed
to any registered key-extractor, yet every line of the input — including
the first K — has a LineOffsets row recording its offset (the total
length of the preceding lines) and its length. -/
theorem c9_skip_first (skipFirst : Nat) (data : List Nat) (n : Nat) :
    (n ≤ skipFirst → ∀ c, (n, c) ∉ indexedLines skipFirst data) ∧
    (1 ≤ n → n ≤ (splitLines data).length →
      lineRow data n =
        some (sumLen ((splitLines data).take (n - 1)),
          ((splitLines data).getD (n - 1) []).length)) := by
  constructor
  · intro hle c hmem
    rw [indexedLines, List.mem_filterMap] at hmem
    obtain ⟨a, _, heq⟩ := hmem
    rw [builderOnLine] at heq
    by_cases hc : a.1 + 1 ≤ skipFirst
    · rw [if_pos hc] at heq
      exact Option.noConfusion heq
    · rw [if_neg hc] at heq
      injection heq with heq
      have : a.1 + 1 = n := congrArg Prod.fst heq
      omega
  · intro h1 h2
    exact lineRow_eq data n h1 h2

/-- Witness for C9: skip_first = 1 on the file "a\nb\n": line 1 is not
fanned out, yet its LineOffsets row exists. -/
theorem c9_skip_first_witness :
    (∀ c, ((1 : Nat), c) ∉ indexedLines 1 [97, 10, 98, 10]) ∧
    lineRow [97, 10, 98, 10] 1 =
      some (sumLen ((splitLines [97, 10, 98, 10]).take 0),
        ((splitLines [97, 10, 98, 10]).getD 0 []).length) :=
  ⟨fun c => (c9_skip_first 1 [97, 10, 98, 10] 1).1 (by decide) c,
    (c9_skip_first 1 [97, 10, 98, 10] 1).2 (by decide) (by decide)⟩

theorem foldl_digits_mod (ds : List Char) :
    ∀ a b, a % 2 ^ 64 = b % 2 ^ 64 →
      (ds.foldl (fun x c => x * 10 + (c.toNat - 48)) a) % 2 ^ 64 =
      (ds.foldl (fun x c => x * 10 + (c.toNat - 48)) b) % 2 ^ 64 := by
  induction ds with
  | nil => intro a b h; simpa using h
  | cons c rest ih =>
    intro a b h
    simp only [List.foldl_cons]
    refine ih _ _ ?_
    have h10 : a * 10 % 2 ^ 64 = b * 10 % 2 ^ 64 := Nat.ModEq.mul_right 10 h
    exact Nat.ModEq.add_right _ h10

theorem parseLoop_ok_digits (initKey : List Char) (ds : List Char) :
    ∀ val, val < 2 ^ 64 → (∀ c ∈ ds, '0' ≤ c ∧ c ≤ '9') →
      parseLoop initKey val ds =
        .ok ((ds.foldl (fun x c => x * 10 + (c.toNat - 48)) val) % 2 ^ 64) := by
  induction ds with
  | nil =>
    intro val hv _
    simp only [parseLoop, List.foldl_nil]
    rw [Nat.mod_eq_of_lt hv]
  | cons c rest ih =>
    intro val hv hd
    have hc := hd c (List.mem_cons_self c rest)
    have hnot : ¬(c < '0' ∨ c > '9') := by
      push_neg
      exact ⟨hc.1, hc.2⟩
    simp only [parseLoop]
    rw [if_neg hnot]
    set v1 := (val * 10 % 2 ^ 64 + (c.toNat - 48)) % 2 ^ 64 with hv1
    have hv1lt : v1 < 2 ^ 64 := Nat.mod_lt _ (by norm_num)
    rw [ih v1 hv1lt (fun x hx => hd x (List.mem_cons_of_mem c hx))]
    simp only [List.foldl_cons]
    congr 1
    refine foldl_digits_mod rest v1 (val * 10 + (c.toNat - 48)) ?_
    calc v1 % 2 ^ 64 = v1 := Nat.mod_eq_of_lt hv1lt
      _ = (val * 10 % 2 ^ 64 + (c.toNat - 48)) % 2 ^ 64 := hv1
      _ = (val * 10 + (c.toNat - 48)) % 2 ^ 64 := Nat.mod_add_mod _ _ _

theorem parseLoop_error_of_bad (initKey : List Char) (ds : List Char) :
    ∀ val, ¬(∀ c ∈ ds, '0' ≤ c ∧ c ≤ '9') →
      parseLoop initKey val ds =
        .error ("Non-numeric: \x27" ++ String.mk initKey ++ "\x27") := by
  induction ds with
  | nil => intro val h; exact absurd (by simp) h
  | cons c rest ih =>
    intro val h
    by_cases hc : '0' ≤ c ∧ c ≤ '9'
    · have hrest : ¬(∀ x ∈ rest, '0' ≤ x ∧ x ≤ '9') := by
        intro hall
        refine h ?_
        intro x hx
        rcases List.mem_cons.mp hx with hx | hx
        · subst hx; exact hc
        · exact hall x hx
      have hnot : ¬(c < '0' ∨ c > '9') := by
        push_neg
        exact ⟨hc.1, hc.2⟩
      simp only [parseLoop]
      rw [if_neg hnot]
      exact ih _ hrest
    · have hcbad : c < '0' ∨ c > '9' := by
        rcases not_and_or.mp hc with h1 | h1
        · exact Or.inl (not_le.mp h1)
        · exact Or.inr (not_le.mp h1)
      simp only [parseLoop]
      rw [if_pos hcbad]

theorem numericAdd_all_digits (key : List Char) (hne : key ≠ [])
    (hd : ∀ c ∈ key, '0' ≤ c ∧ c ≤ '9') :
    numericAdd key = .ok (toSigned64 (digitsVal key % 2 ^ 64)) := by
  have hhead : ¬(key.head? = some '-') := by
    cases key with
    | nil => simp
    | cons c rest =>
      simp only [List.head?_cons, Option.some_inj]
      intro hcm
      have hle := (hd c (List.mem_cons_self c rest)).1
      rw [hcm] at hle
      exact absurd hle (by decide)
  have hloop := parseLoop_ok_digits key key 0 (by norm_num) hd
  simp only [numericAdd, hhead, if_false, hne, hloop]
  rfl

theorem shape_digits (l : List Char)
    (h : (!l.isEmpty &&
      l.all (fun c => decide ('0' ≤ c) && decide (c ≤ '9'))) = true) :
    l ≠ [] ∧ ∀ c ∈ l, '0' ≤ c ∧ c ≤ '9' := by
  rw [Bool.and_eq_true, Bool.not_eq_true', List.isEmpty_eq_false] at h
  refine ⟨h.1, ?_⟩
  intro c hc
  have := List.all_eq_true.mp h.2 c hc
  simpa using this

theorem digits_shape (l : List Char) (hne : l ≠ [])
    (hd : ∀ c ∈ l, '0' ≤ c ∧ c ≤ '9') :
    (!l.isEmpty &&
      l.all (fun c => decide ('0' ≤ c) && decide (c ≤ '9'))) = true := by
  rw [Bool.and_eq_true, Bool.not_eq_true', List.isEmpty_eq_false]
  refine ⟨hne, ?_⟩
  rw [List.all_eq_true]
  intro c hc
  simpa using hd c hc

theorem numericAdd_ok_of_shape (key : List Char)
    (h : isNumericKeyShape key = true) : ∃ v, numericAdd key = .ok v := by
  by_cases hhead : key.head? = some '-'
  · simp only [isNumericKeyShape, hhead, if_true] at h
    obtain ⟨hne, hd⟩ := shape_digits key.tail h
    have hloop := parseLoop_ok_digits key key.tail 0 (by norm_num) hd
    refine ⟨toSigned64 ((2 ^ 64 -
      (key.tail.foldl (fun x c => x * 10 + (c.toNat - 48)) 0) % 2 ^ 64)
        % 2 ^ 64), ?_⟩
    simp [numericAdd, hhead, hne, hloop]
  · simp only [isNumericKeyShape, hhead, if_false] at h
    obtain ⟨hne, hd⟩ := shape_digits key h
    exact ⟨_, numericAdd_all_digits key hne hd⟩

theorem numericAdd_error_of_shape (key : List Char)
    (h : isNumericKeyShape key = false) : ∃ e, numericAdd key = .error e := by
  by_cases hhead : key.head? = some '-'
  · simp only [isNumericKeyShape, hhead, if_true] at h
    by_cases hemp : key.tail = []
    · exact ⟨"Non-numeric: empty string", by simp [numericAdd, hhead, hemp]⟩
    · have hbad : ¬(∀ c ∈ key.tail, '0' ≤ c ∧ c ≤ '9') := by
        intro hall
        rw [digits_shape key.tail hemp hall] at h
        exact Bool.noConfusion h
      have hloop := parseLoop_error_of_bad key key.tail 0 hbad
      refine ⟨"Non-numeric: \x27" ++ String.mk key ++ "\x27", ?_⟩
      simp [numericAdd, hhead, hemp, hloop]
  · simp only [isNumericKeyShape, hhead, if_false] at h
    by_cases hemp : key = []
    · exact ⟨"Non-numeric: empty string", by simp [numericAdd, hhead, hemp]⟩
    · have hbad : ¬(∀ c ∈ key, '0' ≤ c ∧ c ≤ '9') := by
        intro hall
        rw [digits_shape key hemp hall] at h
        exact Bool.noConfusion h
      have hloop := parseLoop_error_of_bad key key 0 hbad
      refine ⟨"Non-numeric: \x27" ++ String.mk key ++ "\x27", ?_⟩
      simp [numericAdd, hhead, hemp, hloop]

/-- Claim C7: for a numeric index, a key that is empty or contains a
non-digit character after an optional leading minus sign makes the
handler raise an error that the onLine wrapper rethrows with the
offending line's number and the raw line content spliced into the
message (aborting the build); a key that is an optionally-signed decimal
digit string is accepted and a signed integer is stored. -/
theorem c7_numeric_key_validation (n : Nat) (line : String) (key : String) :
    (isNumericKeyShape key.data = false →
      ∃ m, numericOnLine n line [key] = .error m ∧
        (∃ p q, m.data = p ++ (toString n).data ++ q) ∧
        (∃ p q, m.data = p ++ line.data ++ q)) ∧
    (isNumericKeyShape key.data = true →
      ∃ v, numericOnLine n line [key] = .ok [v]) := by
  constructor
  · intro h
    obtain ⟨e, he⟩ := numericAdd_error_of_shape key.data h
    refine ⟨"Failed to index line " ++ toString n ++ ": \x27" ++ line
      ++ "\x27 - " ++ e, ?_, ?_, ?_⟩
    · simp [numericOnLine, addAllKeys, he]
    · refine ⟨("Failed to index line " : String).data,
        (": \x27" ++ line ++ "\x27 - " ++ e).data, ?_⟩
      simp [String.data_append]
    · refine ⟨("Failed to index line " ++ toString n ++ ": \x27").data,
        ("\x27 - " ++ e).data, ?_⟩
      simp [String.data_append]
  · intro h
    obtain ⟨v, hv⟩ := numericAdd_ok_of_shape key.data h
    exact ⟨v, by simp [numericOnLine, addAllKeys, hv]⟩

/-- Witness for C7: line 5 with content "foo"; the key "12x" is rejected
with a wrapped message, the key "42" is accepted. -/
theorem c7_numeric_key_validation_witness :
    (∃ m, numericOnLine 5 "foo" ["12x"] = .error m ∧
        (∃ p q, m.data = p ++ (toString 5).data ++ q) ∧
        (∃ p q, m.data = p ++ "foo".data ++ q)) ∧
    (∃ v, numericOnLine 5 "foo" ["42"] = .ok [v]) :=
  ⟨(c7_numeric_key_validation 5 "foo" "12x").1 (by decide),
    (c7_numeric_key_validation 5 "foo" "42").2 (by decide)⟩

/-- Claim C10: the numeric key parser performs no overflow check — for
every digit string whose decimal value exceeds the int64 range
(is at least 2 ^ 63), NumericHandler::add succeeds and stores the result
of the val * 10 + digit accumulation wrapping modulo 2 ^ 64,
reinterpreted as a signed two's-complement 64-bit integer, rather than
raising an error. -/
theorem c10_numeric_overflow_wraps (key : List Char) (hne : key ≠ [])
    (hd : ∀ c ∈ key, '0' ≤ c ∧ c ≤ '9')
    (_hbig : 2 ^ 63 ≤ digitsVal key) :
    numericAdd key = .ok (toSigned64 (digitsVal key % 2 ^ 64)) :=
  numericAdd_all_digits key hne hd

/-- Witness for C10: the decimal string for 2 ^ 64 + 1, whose value
exceeds the int64 range; the stored key is the wrapped value. -/
theorem c10_numeric_overflow_wraps_witness :
    numericAdd ("18446744073709551617" : String).data =
      .ok (toSigned64 (digitsVal ("18446744073709551617" : String).data
        % 2 ^ 64)) ∧
    2 ^ 63 ≤ digitsVal ("18446744073709551617" : String).data :=
  ⟨c10_numeric_overflow_wraps ("18446744073709551617" : String).data
      (by decide) (by decide) (by decide),
    by decide⟩

end Zindex
